import Mathlib

/-!
Shallow embedding of the StorytelReaderMods boot-image tooling
(`src/tools/unpack.py`, `src/tools/pack.py`, `src/tools/utils/rockchip.py`,
`src/tools/utils/cpiofile.py`) together with proofs about the properties
claimed of it.  Byte streams are modelled as `List Nat` (each element a
byte value), machine arithmetic as `Nat` with explicit masking, and the
stateful archive writer as explicit state passing.
-/

namespace StorytelMods

/-! ## Generic byte and digit helpers -/

/-- Minimal hexadecimal digit expansion (most significant digit first),
fuel-based so that it reduces by evaluation.  `hexDigitsAux (n+1) n`
computes the digits Python's `"%X" % n` would print (as digit values). -/
def hexDigitsAux : Nat → Nat → List Nat
  | 0, _ => []
  | fuel + 1, n => if n < 16 then [n] else hexDigitsAux fuel (n / 16) ++ [n % 16]

/-- The minimal hex digit string of `n`, most significant first. -/
def hexDigitsMin (n : Nat) : List Nat := hexDigitsAux (n + 1) n

/-- Minimal octal digit expansion, fuel-based (Python `oct(n)[2:]`). -/
def octDigitsAux : Nat → Nat → List Nat
  | 0, _ => []
  | fuel + 1, n => if n < 8 then [n] else octDigitsAux fuel (n / 8) ++ [n % 8]

/-- The minimal octal digit string of `n`, most significant first. -/
def octDigitsMin (n : Nat) : List Nat := octDigitsAux (n + 1) n

/-- The ASCII byte of one uppercase hex digit, as produced by `%X`. -/
def hexByte (d : Nat) : Nat := if d < 10 then 48 + d else 55 + d

/-- The value of one ASCII hex digit byte, as accepted by Python's
`int(_, 16)` (digits, uppercase and lowercase letters). -/
def hexCharVal (c : Nat) : Nat :=
  if 48 ≤ c ∧ c ≤ 57 then c - 48
  else if 65 ≤ c ∧ c ≤ 70 then c - 55
  else if 97 ≤ c ∧ c ≤ 102 then c - 87
  else 0

/-- Parse an ASCII hexadecimal byte string (Python `int(buf, 16)` on the
well-formed inputs the archive codec produces). -/
def parseHexBytes (l : List Nat) : Nat :=
  l.foldl (fun a c => 16 * a + hexCharVal c) 0

/-- The ASCII byte of one octal digit. -/
def octByte (d : Nat) : Nat := 48 + d

/-- Parse an ASCII octal byte string (Python `int(s, 8)` on the digit
strings the descriptor stores). -/
def parseOctBytes (l : List Nat) : Nat :=
  l.foldl (fun a c => 8 * a + (c - 48)) 0

/-- Python's `b"%0*X" % n`: the minimal uppercase hex digits of `n`,
zero-padded on the left to width `w` (wider if `n` needs more digits). -/
def fmtHex (w n : Nat) : List Nat :=
  (List.replicate (w - (hexDigitsMin n).length) 0 ++ hexDigitsMin n).map hexByte

/-- Python `oct(n)[2:]` as ASCII bytes. -/
def octString (n : Nat) : List Nat := (octDigitsMin n).map octByte

/-- Python slice `buf[i:j]` on a byte list. -/
def pyslice (buf : List Nat) (i j : Nat) : List Nat := (buf.drop i).take (j - i)

/-- NUL-pad a byte string to the next 4-byte boundary
(`cpiofile.py` pads with `(WORDSIZE - remainder) * NUL` when
`len(buf) % WORDSIZE != 0`). -/
def padWord (l : List Nat) : List Nat :=
  l ++ List.replicate ((4 - l.length % 4) % 4) 0

/-- `CpioFile._word`: round a byte count up to the next multiple of 4. -/
def wordAlign (count : Nat) : Nat := count + (4 - count % 4) % 4

/-- `bytes.startswith` on byte lists. -/
def startsWith : List Nat → List Nat → Bool
  | [], _ => true
  | _ :: _, [] => false
  | a :: ps, b :: ls => a = b && startsWith ps ls

/-- Little-endian 32-bit decode of a 4-byte list (`struct.unpack('<I', _)`). -/
def le32 : List Nat → Nat
  | [a, b, c, d] => a + 256 * (b + 256 * (c + 256 * d))
  | _ => 0

/-! ## Checksum (`rkcrc32` in `src/tools/utils/rockchip.py`) -/

/-- One shift-and-conditionally-XOR round of the Rockchip checksum, as the
code writes it: `crc = ((crc << 1) & 0xffffffff) ^ 0x04c10db7` when bit 31
is set (`crc & 0x80000000` truthy), else `crc = (crc << 1) & 0xffffffff`. -/
def rkRound (crc : Nat) : Nat :=
  if crc &&& 0x80000000 ≠ 0 then ((crc <<< 1) &&& 0xffffffff) ^^^ 0x04c10db7
  else (crc <<< 1) &&& 0xffffffff

/-- Absorb one input byte: `crc ^= (b << 24) & 0xffffffff` followed by the
8-iteration `for i in range(0, 8)` loop of rounds. -/
def rkByte (crc b : Nat) : Nat :=
  (List.range 8).foldl (fun c _ => rkRound c) (crc ^^^ ((b <<< 24) &&& 0xffffffff))

/-- `rkcrc32` over the file's bytes: accumulator starts at 0 and each byte
is absorbed in order (the 8192-byte chunked read loop visits every byte of
the file exactly once, in order). -/
def rkcrc32 (data : List Nat) : Nat := data.foldl rkByte 0

/-- Modelled from the spec's wording of the checksum (§4.4 / claim C2):
bit 31 tested with `Nat.testBit`, truncation to 32 bits written as
`% 2 ^ 32`, XOR with polynomial `0x04C10DB7` after the shift. -/
def rkRoundSpec (crc : Nat) : Nat :=
  if crc.testBit 31 then ((crc <<< 1) ^^^ 0x04C10DB7) % 2 ^ 32
  else (crc <<< 1) % 2 ^ 32

/-- Modelled from the spec's wording: 8 rounds as literal recursion. -/
def rkRoundsSpec : Nat → Nat → Nat
  | 0, crc => crc
  | n + 1, crc => rkRoundsSpec n (rkRoundSpec crc)

/-- Modelled from the spec's wording: XOR the byte shifted left 24 bits
into the accumulator, then perform 8 rounds, truncating to 32 bits. -/
def rkByteSpec (crc b : Nat) : Nat :=
  rkRoundsSpec 8 (crc ^^^ ((b <<< 24) % 2 ^ 32))

/-- Modelled from the spec's wording: fold over the input, accumulator 0. -/
def rkcrc32Spec (data : List Nat) : Nat := data.foldl rkByteSpec 0

/-! ## KRNL container (`src/tools/utils/rockchip.py`) -/

/-- The 4 ASCII bytes `KRNL`. -/
def krnlMagic : List Nat := [75, 82, 78, 76]

/-- `unpack_rockchip_krnl_bootimg` on the bytes of the boot image:
`check_krnl_initrd_img` demands the 4-byte magic `KRNL` *and* the gzip
magic `1F 8B` at offset 8; on success the 32-bit little-endian `size`
field at offset 4 is read and exactly `size` bytes starting at offset 8
are extracted as the ramdisk.  `none` models the raised `ValueError`. -/
def unpackKrnl (img : List Nat) : Option (List Nat) :=
  if pyslice img 0 4 = krnlMagic ∧ pyslice img 8 10 = [0x1f, 0x8b] then
    some ((img.drop 8).take (le32 (pyslice img 4 8)))
  else none

/-- `pad` in `src/tools/utils/__init__.py`: append NUL bytes until the file
is at least `size` bytes long (never truncates). -/
def padFile (content : List Nat) (size : Nat) : List Nat :=
  content ++ List.replicate (size - content.length) 0

/-- `pack_rockchip_krnl_bootimg` body bytes, given the ramdisk bytes that
are wrapped: magic, little-endian size, payload, little-endian `rkcrc32`,
then NUL padding up to the recorded image size. -/
def packKrnl (ramdisk : List Nat) (imageSize : Nat) : List Nat :=
  let crc := rkcrc32 ramdisk
  padFile
    (krnlMagic
      ++ [ramdisk.length % 256, ramdisk.length / 256 % 256,
          ramdisk.length / 65536 % 256, ramdisk.length / 16777216 % 256]
      ++ ramdisk
      ++ [crc % 256, crc / 256 % 256, crc / 65536 % 256, crc / 16777216 % 256])
    imageSize

/-! ## Archive member (`CpioInfo` in `src/tools/utils/cpiofile.py`) -/

/-- `CpioInfo.__init__` field layout with its defaults
(`mode = S_IFREG | 0o444`, `nlink = 1`, everything else 0, empty names).
Names are byte lists; the `buf`, `offset` and `offset_data` bookkeeping
attributes play no part in the claims and are omitted. -/
structure CpioInfo where
  ino : Nat := 0
  mode : Nat := 0o100444
  uid : Nat := 0
  gid : Nat := 0
  nlink : Nat := 1
  mtime : Nat := 0
  size : Nat := 0
  devmajor : Nat := 0
  devminor : Nat := 0
  rdevmajor : Nat := 0
  rdevminor : Nat := 0
  namesize : Nat := 0
  check : Nat := 0
  name : List Nat := []
  linkname : List Nat := []
deriving DecidableEq

/-- `MAGIC_NEWC`, the SVR4 portable format magic. -/
def MAGIC_NEWC : Nat := 0x070701

/-- The value written into the header's size field by `tobuf`:
`self.linkname == '' and self.size or len(self.linkname)` — the data size
for ordinary members, the link-target length for symlinks (for an empty
linkname with size 0 both arms of the Python idiom give 0). -/
def sizeField (m : CpioInfo) : Nat :=
  if m.linkname = [] then m.size else m.linkname.length

/-- The fourteen fixed-width ASCII-hex header fields written by `tobuf`,
in order: 6-digit magic then thirteen 8-digit fields. -/
def headerFields (m : CpioInfo) : List (List Nat) :=
  [fmtHex 6 MAGIC_NEWC, fmtHex 8 m.ino, fmtHex 8 m.mode, fmtHex 8 m.uid,
   fmtHex 8 m.gid, fmtHex 8 m.nlink, fmtHex 8 m.mtime, fmtHex 8 (sizeField m),
   fmtHex 8 m.devmajor, fmtHex 8 m.devminor, fmtHex 8 m.rdevmajor,
   fmtHex 8 m.rdevminor, fmtHex 8 (m.name.length + 1), fmtHex 8 m.check]

/-- `CpioInfo.tobuf`: header fields, the NUL-terminated name, NUL padding
to the next 4-byte boundary, and for symlinks the link target followed by
its own padding. -/
def CpioInfo.tobuf (m : CpioInfo) : List Nat :=
  let buf := padWord ((headerFields m).flatten ++ m.name ++ [0])
  if m.linkname = [] then buf else padWord (buf ++ m.linkname)

/-- `CpioInfo.frombuf`: parse the fixed 110-byte prefix by byte offsets;
the name is read separately by the caller, so it stays empty here, and all
other attributes keep their constructor defaults. -/
def CpioInfo.frombuf (buf : List Nat) : CpioInfo :=
  { ino := parseHexBytes (pyslice buf 6 14),
    mode := parseHexBytes (pyslice buf 14 22),
    uid := parseHexBytes (pyslice buf 22 30),
    gid := parseHexBytes (pyslice buf 30 38),
    nlink := parseHexBytes (pyslice buf 38 46),
    mtime := parseHexBytes (pyslice buf 46 54),
    size := parseHexBytes (pyslice buf 54 62),
    devmajor := parseHexBytes (pyslice buf 62 70),
    devminor := parseHexBytes (pyslice buf 70 78),
    rdevmajor := parseHexBytes (pyslice buf 78 86),
    rdevminor := parseHexBytes (pyslice buf 86 94),
    namesize := parseHexBytes (pyslice buf 94 102),
    check := parseHexBytes (pyslice buf 102 110) }

/-- `stat.S_ISDIR(self.mode)`. -/
def CpioInfo.isdir (m : CpioInfo) : Bool := m.mode &&& 0o170000 == 0o040000

/-- `stat.S_ISREG(self.mode)`. -/
def CpioInfo.isreg (m : CpioInfo) : Bool := m.mode &&& 0o170000 == 0o100000

/-! ## Write-mode archive state (`CpioFile` in write mode) -/

/-- The mutable state of a write-mode `CpioFile` that the claims touch:
the running byte offset, the bytes written so far, the member list, and
the `inodes` dictionary mapping an inode to the names added under it. -/
structure WriteState where
  offset : Nat := 0
  out : List Nat := []
  members : List CpioInfo := []
  inodes : List (Nat × List (List Nat)) := []
deriving DecidableEq

/-- Dictionary lookup in the `inodes` table. -/
def inodeLookup : List (Nat × List (List Nat)) → Nat → Option (List (List Nat))
  | [], _ => none
  | (k, v) :: rest, i => if k = i then some v else inodeLookup rest i

/-- Dictionary store `self.inodes[ino] = v` (replaces an existing entry). -/
def inodeStore : List (Nat × List (List Nat)) → Nat → List (List Nat) →
    List (Nat × List (List Nat))
  | [], i, v => [(i, v)]
  | (k, w) :: rest, i, v =>
    if k = i then (i, v) :: rest else (k, w) :: inodeStore rest i v

/-- The hardlink bookkeeping `addfile` performs on its (copied) member
argument: when the link count exceeds 1, hardlink tracking is on and the
inode was already added, the entry's size is forced to 0. -/
def addfileMember (hardlinks : Bool) (st : WriteState) (cpioinfo : CpioInfo) :
    CpioInfo :=
  if 1 < cpioinfo.nlink
      && (hardlinks && (inodeLookup st.inodes cpioinfo.ino).isSome) then
    { cpioinfo with size := 0 }
  else cpioinfo

/-- The update of the `inodes` dictionary performed by `addfile`: for a
member with link count above 1, either append the name to the inode's
existing alias list (first occurrence already added, tracking on) or
store the name as the inode's first occurrence. -/
def addfileInodes (hardlinks : Bool) (st : WriteState) (cpioinfo : CpioInfo) :
    List (Nat × List (List Nat)) :=
  if 1 < cpioinfo.nlink then
    if hardlinks && (inodeLookup st.inodes cpioinfo.ino).isSome then
      inodeStore st.inodes cpioinfo.ino
        ((inodeLookup st.inodes cpioinfo.ino).getD [] ++ [cpioinfo.name])
    else inodeStore st.inodes cpioinfo.ino [cpioinfo.name]
  else st.inodes

/-- `CpioFile.addfile`: hardlink bookkeeping on the (copied) member, then
header+name bytes, then — when a payload file object is supplied —
`cpioinfo.size` payload bytes and NUL padding of the global offset to the
next 4-byte boundary.  `hardlinks` models the class attribute of the same
name. -/
def addfile (hardlinks : Bool) (st : WriteState) (cpioinfo : CpioInfo)
    (payload : Option (List Nat)) : WriteState :=
  let ci := addfileMember hardlinks st cpioinfo
  let buf := ci.tobuf
  let afterHeader := st.offset + buf.length
  match payload with
  | none =>
    { offset := afterHeader, out := st.out ++ buf,
      members := st.members ++ [ci],
      inodes := addfileInodes hardlinks st cpioinfo }
  | some data =>
    let afterData := afterHeader + ci.size
    let padLen := (4 - afterData % 4) % 4
    { offset := afterData + padLen,
      out := st.out ++ buf ++ data.take ci.size ++ List.replicate padLen 0,
      members := st.members ++ [ci],
      inodes := addfileInodes hardlinks st cpioinfo }

/-! ## Compression auto-detection (`_StreamProxy.getcomptype`) -/

/-- `_StreamProxy.getcomptype` over the peeked leading bytes: gzip when
the buffer starts `1F 8B 08`, bzip2 when it starts `BZh91`, xz when it
starts with `FD 37 7A 58 5A 00`, otherwise plain cpio. -/
def getcomptype (buf : List Nat) : String :=
  if startsWith [0x1f, 0x8b, 0x08] buf then "gz"
  else if startsWith [66, 90, 104, 57, 49] buf then "bz2"
  else if startsWith [0xfd, 55, 122, 88, 90, 0] buf then "xz"
  else "cpio"

/-! ## Directory metadata pass of `CpioFile.extractall` -/

/-- Python string `<` on byte strings (lexicographic). -/
def lexLe : List Nat → List Nat → Bool
  | [], _ => true
  | _ :: _, [] => false
  | a :: as, b :: bs => if a < b then true else if b < a then false else lexLe as bs

/-- Stable insertion into an ascending list (equal keys keep order). -/
def insertSorted (x : List Nat) : List (List Nat) → List (List Nat)
  | [] => [x]
  | y :: ys => if lexLe y x then y :: insertSorted x ys else x :: y :: ys

/-- `list.sort(key=lambda x: x.name)`: stable ascending sort by name. -/
def sortNames (l : List (List Nat)) : List (List Nat) :=
  l.foldl (fun acc x => insertSorted x acc) []

/-- `os.path.join(path, name)` for a relative, non-empty `name`. -/
def joinPath (a b : List Nat) : List Nat := a ++ [47] ++ b

/-- The loop body of `extractall`'s final pass: on each iteration the code
executes `path = os.path.join(path, cpioinfo.name)` — reassigning `path`
itself — and then applies chown/utime/chmod to that path. -/
def dirMetadataPassAux : List Nat → List (List Nat) → List (List Nat)
  | _, [] => []
  | path, n :: rest =>
    let p := joinPath path n
    p :: dirMetadataPassAux p rest

/-- The sequence of filesystem paths to which `extractall` applies owner,
permission bits and mtime in its final directory pass: directory names
sorted ascending, reversed, then the reassigning loop above. -/
def dirMetadataPass (root : List Nat) (dirnames : List (List Nat)) : List (List Nat) :=
  dirMetadataPassAux root (sortNames dirnames).reverse

/-- The directory names of the members `extractall` collects in its first
pass, in encounter order. -/
def dirNamesOf (members : List CpioInfo) : List (List Nat) :=
  (members.filter (fun m => m.isdir)).map (fun m => m.name)

/-! ## Attribute overrides in `pack` (`src/tools/pack.py`) -/

/-- One entry of the descriptor's `ramdisk_files` table: uid, gid, the
mode as an ASCII octal digit string, and mtime. -/
structure FileAttr where
  uid : Nat
  gid : Nat
  mode : List Nat
  mtime : Nat
deriving DecidableEq

/-- `default_file_attr = {"uid": 0, "gid": 0, "mode": "644", "mtime": 0}`. -/
def defaultFileAttr : FileAttr := ⟨0, 0, [54, 52, 52], 0⟩

/-- `default_dir_attr = {"uid": 0, "gid": 0, "mode": "755", "mtime": 0}`. -/
def defaultDirAttr : FileAttr := ⟨0, 0, [55, 53, 53], 0⟩

/-- Dictionary lookup in an attribute table. -/
def attrLookup : List (List Nat × FileAttr) → List Nat → Option FileAttr
  | [], _ => none
  | (k, v) :: rest, key => if k = key then some v else attrLookup rest key

/-- `{**ramdisk_files, **extra_ramdisk_files}`: the extra overrides win. -/
def mergedAttrs (desc extra : List (List Nat × FileAttr)) (key : List Nat) :
    Option FileAttr :=
  match attrLookup extra key with
  | some v => some v
  | none => attrLookup desc key

/-- The four assignments `pack` performs on the member built from the live
filesystem entry: uid, gid and mtime come from the table entry, and the
mode becomes `int(attr, 8) | (live_mode & 0o177000)`. -/
def applyFileAttr (ci : CpioInfo) (fa : FileAttr) : CpioInfo :=
  { ci with
    uid := fa.uid
    gid := fa.gid
    mtime := fa.mtime
    mode := parseOctBytes fa.mode ||| (ci.mode &&& 0o177000) }

/-- The per-member attribute step of `pack`: look the archive name up in
the merged table, fall back to the directory or file default according to
the live entry type, and apply. -/
def packEntryAttrs (desc extra : List (List Nat × FileAttr)) (arcname : List Nat)
    (ci : CpioInfo) : CpioInfo :=
  applyFileAttr ci
    ((mergedAttrs desc extra arcname).getD
      (if ci.isdir then defaultDirAttr else defaultFileAttr))

/-- `cpio_info_to_dict` in `src/tools/unpack.py`: the attribute captured
into the descriptor, with the mode rendered as `oct(mode & 0o777)[2:]`. -/
def captureAttr (ci : CpioInfo) : FileAttr :=
  ⟨ci.uid, ci.gid, octString (ci.mode &&& 0o777), ci.mtime⟩

/-- The numeric header fields named by claim C3, each small enough to be
rendered as exactly 8 hex digits (`%08X` widens past 8 digits otherwise). -/
def headerFieldsFit (m : CpioInfo) : Prop :=
  m.ino < 2 ^ 32 ∧ m.mode < 2 ^ 32 ∧ m.uid < 2 ^ 32 ∧ m.gid < 2 ^ 32
  ∧ m.nlink < 2 ^ 32 ∧ m.mtime < 2 ^ 32 ∧ m.size < 2 ^ 32
  ∧ m.devmajor < 2 ^ 32 ∧ m.devminor < 2 ^ 32 ∧ m.rdevmajor < 2 ^ 32
  ∧ m.rdevminor < 2 ^ 32 ∧ m.name.length + 1 < 2 ^ 32

instance (m : CpioInfo) : Decidable (headerFieldsFit m) := by
  unfold headerFieldsFit
  infer_instance

/-! ## Concrete inputs used to settle individual claims -/

/-- A small regular-file member (name `a`, 3 payload bytes). -/
def c3m : CpioInfo :=
  { ino := 1, mode := 0o100644, uid := 0, gid := 0, nlink := 1, mtime := 5,
    size := 3, name := [97] }

/-- A member with the 5-byte name `a.txt` used in claim C4's example. -/
def c4m5 : CpioInfo :=
  { ino := 1, mode := 0o100644, size := 0, name := [97, 46, 116, 120, 116] }

/-- A member with a 4-byte name `abcd` used in claim C4's example. -/
def c4m4 : CpioInfo :=
  { ino := 1, mode := 0o100644, size := 0, name := [97, 98, 99, 100] }

/-- First hardlink-group member (inode 7, nlink 2, 3 payload bytes). -/
def c6m1 : CpioInfo :=
  { ino := 7, mode := 0o100644, nlink := 2, size := 3, name := [97] }

/-- Second hardlink-group member (same inode 7, nlink 2). -/
def c6m2 : CpioInfo :=
  { ino := 7, mode := 0o100644, nlink := 2, size := 3, name := [98] }

/-- A 12-byte image whose magic is `KRNL` (size field 4) but whose payload
does not begin with the gzip magic. -/
def krnlBadImg : List Nat := krnlMagic ++ [4, 0, 0, 0] ++ [0, 0, 0, 0]

/-- A well-formed-enough 10-byte image: magic `KRNL`, size 2, and the two
payload bytes are the gzip magic. -/
def krnlGoodImg : List Nat := krnlMagic ++ [2, 0, 0, 0] ++ [0x1f, 0x8b]

/-- A peek buffer beginning with the 4 ASCII bytes `BZh9` but not `BZh91`. -/
def bzh9Buf : List Nat := [66, 90, 104, 57, 65, 65]

/-- The extraction root `root` used in the claim C8 evaluation. -/
def c8Root : List Nat := [114, 111, 111, 116]

end StorytelMods

namespace StorytelMods

/-! ## Supporting lemmas on digits and parsing -/

theorem parseHexBytes_append_digit (l : List Nat) (c : Nat) :
    parseHexBytes (l ++ [c]) = 16 * parseHexBytes l + hexCharVal c := by
  simp [parseHexBytes, List.foldl_append]

theorem hexDigitsAux_parse (fuel n : Nat) (h : n < fuel) :
    (hexDigitsAux fuel n).foldl (fun a d => 16 * a + d) 0 = n := by
  induction fuel generalizing n with
  | zero => omega
  | succ fuel ih =>
    rw [hexDigitsAux]
    by_cases h16 : n < 16
    · simp [h16]
    · have hdiv : n / 16 < fuel := by
        have : n / 16 < n := Nat.div_lt_self (by omega) (by omega)
        omega
      simp only [h16, if_false, List.foldl_append]
      rw [ih _ hdiv]
      simp only [List.foldl_cons, List.foldl_nil]
      omega

theorem hexDigitsMin_parse (n : Nat) :
    (hexDigitsMin n).foldl (fun a d => 16 * a + d) 0 = n :=
  hexDigitsAux_parse (n + 1) n (Nat.lt_succ_self n)

theorem hexDigitsAux_lt (fuel n : Nat) (h : n < fuel) :
    ∀ d ∈ hexDigitsAux fuel n, d < 16 := by
  induction fuel generalizing n with
  | zero => omega
  | succ fuel ih =>
    rw [hexDigitsAux]
    by_cases h16 : n < 16
    · simp [h16]
    · have hdiv : n / 16 < fuel := by
        have : n / 16 < n := Nat.div_lt_self (by omega) (by omega)
        omega
      simp only [h16, if_false]
      intro d hd
      rcases List.mem_append.1 hd with hd | hd
      · exact ih _ hdiv d hd
      · simp at hd; omega

theorem hexDigitsMin_lt (n : Nat) : ∀ d ∈ hexDigitsMin n, d < 16 :=
  hexDigitsAux_lt (n + 1) n (Nat.lt_succ_self n)

theorem hexDigitsAux_length (fuel n k : Nat) (hf : n < fuel) (hk : 1 ≤ k)
    (h : n < 16 ^ k) : (hexDigitsAux fuel n).length ≤ k := by
  induction fuel generalizing n k with
  | zero => omega
  | succ fuel ih =>
    rw [hexDigitsAux]
    by_cases h16 : n < 16
    · simp [h16]; omega
    · have hdiv : n / 16 < fuel := by
        have : n / 16 < n := Nat.div_lt_self (by omega) (by omega)
        omega
      have hk2 : 2 ≤ k := by
        by_contra hc
        have hk1 : k = 1 := by omega
        rw [hk1] at h; simp at h; omega
      have hdivpow : n / 16 < 16 ^ (k - 1) := by
        have h2 : n < 16 ^ (k - 1) * 16 := by
          have : 16 ^ (k - 1) * 16 = 16 ^ k := by
            rw [← Nat.pow_succ]
            congr 1
            omega
          omega
        exact (Nat.div_lt_iff_lt_mul (by omega)).2 h2
      simp only [h16, if_false, List.length_append]
      have := ih (n / 16) (k - 1) hdiv (by omega) hdivpow
      simp
      omega

theorem hexDigitsMin_length (n k : Nat) (hk : 1 ≤ k) (h : n < 16 ^ k) :
    (hexDigitsMin n).length ≤ k :=
  hexDigitsAux_length (n + 1) n k (Nat.lt_succ_self n) hk h

theorem hexCharVal_hexByte (d : Nat) (h : d < 16) :
    hexCharVal (hexByte d) = d := by
  revert h
  revert d
  decide

theorem fmtHex_length (w n : Nat) (h : (hexDigitsMin n).length ≤ w) :
    (fmtHex w n).length = w := by
  simp [fmtHex]
  omega

theorem foldl_hexCharVal_map (l : List Nat) (hl : ∀ d ∈ l, d < 16) :
    ∀ a, (l.map hexByte).foldl (fun a c => 16 * a + hexCharVal c) a
      = l.foldl (fun a d => 16 * a + d) a := by
  induction l with
  | nil => intro a; rfl
  | cons d rest ih =>
    intro a
    simp only [List.map_cons, List.foldl_cons]
    rw [hexCharVal_hexByte d (hl d (List.mem_cons_self d rest))]
    exact ih (fun x hx => hl x (List.mem_cons_of_mem d hx)) _

theorem foldl_hexCharVal_zeros (k : Nat) :
    ((List.replicate k 0).map hexByte).foldl (fun a c => 16 * a + hexCharVal c) 0 = 0 := by
  induction k with
  | zero => rfl
  | succ k ih =>
    simp only [List.replicate_succ, List.map_cons, List.foldl_cons]
    simpa [hexCharVal, hexByte] using ih

theorem parseHexBytes_fmtHex (w n : Nat) :
    parseHexBytes (fmtHex w n) = n := by
  unfold parseHexBytes fmtHex
  rw [List.map_append, List.foldl_append, foldl_hexCharVal_zeros,
    foldl_hexCharVal_map _ (hexDigitsMin_lt n)]
  exact hexDigitsMin_parse n


theorem octDigitsAux_parse (fuel n : Nat) (h : n < fuel) :
    (octDigitsAux fuel n).foldl (fun a d => 8 * a + d) 0 = n := by
  induction fuel generalizing n with
  | zero => omega
  | succ fuel ih =>
    rw [octDigitsAux]
    by_cases h8 : n < 8
    · simp [h8]
    · have hdiv : n / 8 < fuel := by
        have : n / 8 < n := Nat.div_lt_self (by omega) (by omega)
        omega
      simp only [h8, if_false, List.foldl_append]
      rw [ih _ hdiv]
      simp only [List.foldl_cons, List.foldl_nil]
      omega

theorem parseOctBytes_octString (n : Nat) : parseOctBytes (octString n) = n := by
  unfold parseOctBytes octString
  rw [List.foldl_map]
  have hfun : (fun (a d : Nat) => 8 * a + (octByte d - 48)) = fun a d => 8 * a + d := by
    funext a d
    simp only [octByte]
    omega
  rw [hfun]
  exact octDigitsAux_parse (n + 1) n (Nat.lt_succ_self n)

/-! ## Bitwise helper lemmas -/

theorem and_mask32 (x : Nat) : x &&& 0xffffffff = x % 2 ^ 32 := by
  have h : (0xffffffff : Nat) = 2 ^ 32 - 1 := by norm_num
  rw [h, Nat.and_pow_two_sub_one_eq_mod]

theorem and_two_pow_ne_zero_iff (c i : Nat) :
    c &&& 2 ^ i ≠ 0 ↔ c.testBit i = true := by
  constructor
  · intro h
    cases hcb : c.testBit i with
    | false =>
      exfalso
      apply h
      apply Nat.eq_of_testBit_eq
      intro j
      rw [Nat.testBit_and, Nat.testBit_two_pow, Nat.zero_testBit]
      by_cases hij : i = j
      · subst hij
        rw [hcb]
        rfl
      · simp [hij]
    | true => rfl
  · intro h hzero
    have hbit := congrArg (fun x => x.testBit i) hzero
    simp [Nat.testBit_and, Nat.testBit_two_pow, h] at hbit

/-! ## Claim C2 lemmas: code checksum versus spec wording -/

theorem rkRound_eq (c : Nat) : rkRound c = rkRoundSpec c := by
  unfold rkRound rkRoundSpec
  by_cases h : c.testBit 31
  · have hc : c &&& 0x80000000 ≠ 0 := by
      have h31 : (0x80000000 : Nat) = 2 ^ 31 := by norm_num
      rw [h31]
      exact (and_two_pow_ne_zero_iff c 31).2 h
    rw [if_pos hc, if_pos h, ← and_mask32 ((c <<< 1) ^^^ 0x04C10DB7),
      Nat.and_xor_distrib_right]
    congr 1
  · have hc : ¬ (c &&& 0x80000000 ≠ 0) := by
      have h31 : (0x80000000 : Nat) = 2 ^ 31 := by norm_num
      rw [h31]
      simp only [ne_eq, not_not]
      by_contra hne
      exact h ((and_two_pow_ne_zero_iff c 31).1 hne)
    rw [if_neg hc, if_neg (by simpa using h), and_mask32]

theorem foldl_range_rkRound (k : Nat) :
    ∀ x, (List.range k).foldl (fun c _ => rkRound c) x = rkRoundsSpec k x := by
  induction k with
  | zero => intro x; rfl
  | succ k ih =>
    intro x
    rw [List.range_succ_eq_map]
    simp only [List.foldl_cons, List.foldl_map]
    rw [show rkRoundsSpec (k + 1) x = rkRoundsSpec k (rkRoundSpec x) from rfl,
      ← rkRound_eq]
    exact ih (rkRound x)

theorem rkByte_eq (c b : Nat) : rkByte c b = rkByteSpec c b := by
  unfold rkByte rkByteSpec
  rw [and_mask32, foldl_range_rkRound]

/-! ## Claim theorems -/

/-- Claim C2: `rkcrc32` computes over the input bytes the 32-bit checksum
defined by: accumulator starts at 0; for each byte, XOR the byte shifted
left 24 bits into the accumulator, then perform 8 rounds of: if bit 31 is
set, shift left one bit and XOR with `0x04C10DB7`, else shift left,
truncating to 32 bits throughout; for an empty input the result is 0. -/
theorem rkcrc32_spec_conformance :
    (∀ data : List Nat, rkcrc32 data = rkcrc32Spec data) ∧ rkcrc32 [] = 0 := by
  refine ⟨fun data => ?_, rfl⟩
  unfold rkcrc32 rkcrc32Spec
  rw [funext fun c => funext fun b => rkByte_eq c b]

/-- Claim C5 counterexample: an image whose 4-byte magic *is* `KRNL` on
which `unpack_rockchip_krnl_bootimg` nevertheless raises (the code also
demands the gzip magic `1F 8B` at offset 8), refuting "fails with an error
if and only if the magic is not 'KRNL'". -/
theorem unpackKrnl_rejects_krnl_magic_input :
    pyslice krnlBadImg 0 4 = krnlMagic ∧ unpackKrnl krnlBadImg = none := by
  decide

/-- Claim C5 (amended): `unpackKrnl` succeeds if and only if the 4-byte
magic is `KRNL` *and* the two bytes at offset 8 are the gzip magic
`1F 8B`; it never inspects the trailing checksum, and on success extracts
exactly the `size` bytes (the 32-bit little-endian field at offset 4)
starting at offset 8 as the ramdisk. -/
theorem unpackKrnl_success_iff (img : List Nat)
    (hlen : 8 + le32 (pyslice img 4 8) ≤ img.length) :
    ((unpackKrnl img).isSome ↔
      pyslice img 0 4 = krnlMagic ∧ pyslice img 8 10 = [0x1f, 0x8b])
    ∧ ∀ r, unpackKrnl img = some r →
        r = pyslice img 8 (8 + le32 (pyslice img 4 8))
        ∧ r.length = le32 (pyslice img 4 8) := by
  unfold unpackKrnl
  by_cases h : pyslice img 0 4 = krnlMagic ∧ pyslice img 8 10 = [0x1f, 0x8b]
  · rw [if_pos h]
    refine ⟨by simp [h], fun r hr => ?_⟩
    have hr' : r = (img.drop 8).take (le32 (pyslice img 4 8)) := by
      simpa using hr.symm
    subst hr'
    constructor
    · simp [pyslice]
    · rw [List.length_take, List.length_drop]
      omega
  · rw [if_neg h]
    exact ⟨by simp [h], fun r hr => by simp at hr⟩

/-- Claim C5 witness: the amended theorem applied to the concrete image
`krnlGoodImg` (magic `KRNL`, size 2, gzip payload). -/
theorem unpackKrnl_success_iff_witness :
    8 + le32 (pyslice krnlGoodImg 4 8) ≤ krnlGoodImg.length
    ∧ (unpackKrnl krnlGoodImg).isSome :=
  ⟨by decide, (unpackKrnl_success_iff krnlGoodImg (by decide)).1.mpr (by decide)⟩

/-- Claim C8: evaluation of the directory metadata pass of `extractall` at
the failing input — an archive holding directories `a` and `b` extracted
to root `root`.  The reverse-sorted order visits `b` first; because the
loop reassigns its `path` variable, the second iteration applies `a`'s
metadata to `root/b/a` instead of `root/a`. -/
theorem extractall_dir_pass_nests_paths :
    dirMetadataPass c8Root [[97], [98]]
      = [[114, 111, 111, 116, 47, 98], [114, 111, 111, 116, 47, 98, 47, 97]]
    ∧ dirMetadataPass c8Root [[97], [98]]
      ≠ [[114, 111, 111, 116, 47, 98], [114, 111, 111, 116, 47, 97]] := by
  decide

/-- Claim C9 counterexample: a stream beginning with the 4 ASCII bytes
`BZh9` (followed by `AA`) is *not* detected as bzip2 — `getcomptype`
compares against the 5-byte prefix `BZh91` — so the stream falls through
to the uncompressed path. -/
theorem getcomptype_bzh9_not_bz2 :
    startsWith [66, 90, 104, 57] bzh9Buf = true
    ∧ getcomptype bzh9Buf = "cpio" ∧ getcomptype bzh9Buf ≠ "bz2" := by
  constructor
  · decide
  · constructor
    · rfl
    · intro h
      simp [getcomptype, startsWith, bzh9Buf] at h

/-- Claim C9 (amended): the detector selects gzip when the stream begins
`1F 8B 08`, bzip2 when it begins with the 5 ASCII bytes `BZh91`, xz when
it begins with the 6-byte XZ magic, and treats the stream as uncompressed
cpio data when none of these three prefixes match. -/
theorem getcomptype_by_magic (buf : List Nat) :
    (startsWith [0x1f, 0x8b, 0x08] buf = true → getcomptype buf = "gz")
    ∧ (startsWith [66, 90, 104, 57, 49] buf = true → getcomptype buf = "bz2")
    ∧ (startsWith [0xfd, 55, 122, 88, 90, 0] buf = true → getcomptype buf = "xz")
    ∧ (startsWith [0x1f, 0x8b, 0x08] buf = false →
        startsWith [66, 90, 104, 57, 49] buf = false →
        startsWith [0xfd, 55, 122, 88, 90, 0] buf = false →
        getcomptype buf = "cpio") := by
  refine ⟨fun h => by simp [getcomptype, h], fun h => ?_, fun h => ?_,
    fun h1 h2 h3 => by simp [getcomptype, h1, h2, h3]⟩
  · match buf, h with
    | 66 :: rest, h =>
      simp only [getcomptype, h]
      simp [startsWith]
  · match buf, h with
    | 0xfd :: rest, h =>
      simp only [getcomptype, h]
      simp [startsWith]

/-- Claim C9 witness: the amended theorem applied to four concrete peek
buffers, one per detected scheme. -/
theorem getcomptype_by_magic_witness :
    getcomptype [0x1f, 0x8b, 0x08, 0] = "gz"
    ∧ getcomptype [66, 90, 104, 57, 49, 0] = "bz2"
    ∧ getcomptype [0xfd, 55, 122, 88, 90, 0, 0] = "xz"
    ∧ getcomptype [48, 55, 48, 55, 48, 49] = "cpio" :=
  ⟨(getcomptype_by_magic _).1 (by decide),
   (getcomptype_by_magic _).2.1 (by decide),
   (getcomptype_by_magic _).2.2.1 (by decide),
   (getcomptype_by_magic _).2.2.2 (by decide) (by decide) (by decide)⟩



/-! ## Slicing lemmas for the fixed 110-byte header -/

theorem pyslice_block (B mid : List Nat) {post : List Nat} (i j : Nat)
    (hd : B.drop i = mid ++ post) (hmid : mid.length = j - i) :
    pyslice B i j = mid := by
  unfold pyslice
  rw [hd]
  exact List.take_left' hmid

theorem drop_block (B mid : List Nat) {post : List Nat} (i j : Nat)
    (hd : B.drop i = mid ++ post) (hmid : mid.length = j - i) (hij : i ≤ j) :
    B.drop j = post := by
  have h1 : B.drop j = (B.drop i).drop (j - i) := by
    rw [List.drop_drop]
    congr 1
    omega
  rw [h1, hd]
  exact List.drop_left' hmid

theorem pyslice_take (B : List Nat) (i j n : Nat) (h : j ≤ n) :
    pyslice (B.take n) i j = pyslice B i j := by
  unfold pyslice
  rw [List.drop_take, List.take_take]
  congr 1
  omega

theorem fmtHex8_length (n : Nat) (h : n < 2 ^ 32) : (fmtHex 8 n).length = 8 := by
  apply fmtHex_length
  apply hexDigitsMin_length n 8 (by omega)
  norm_num at h ⊢
  exact h

end StorytelMods

namespace StorytelMods

theorem frombuf_tobuf_fields (m : CpioInfo) (hlink : m.linkname = [])
    (hfit : headerFieldsFit m) :
    pyslice m.tobuf 6 14 = fmtHex 8 m.ino
    ∧ pyslice m.tobuf 14 22 = fmtHex 8 m.mode
    ∧ pyslice m.tobuf 22 30 = fmtHex 8 m.uid
    ∧ pyslice m.tobuf 30 38 = fmtHex 8 m.gid
    ∧ pyslice m.tobuf 38 46 = fmtHex 8 m.nlink
    ∧ pyslice m.tobuf 46 54 = fmtHex 8 m.mtime
    ∧ pyslice m.tobuf 54 62 = fmtHex 8 (sizeField m)
    ∧ pyslice m.tobuf 62 70 = fmtHex 8 m.devmajor
    ∧ pyslice m.tobuf 70 78 = fmtHex 8 m.devminor
    ∧ pyslice m.tobuf 78 86 = fmtHex 8 m.rdevmajor
    ∧ pyslice m.tobuf 86 94 = fmtHex 8 m.rdevminor
    ∧ pyslice m.tobuf 94 102 = fmtHex 8 (m.name.length + 1)
    ∧ m.tobuf.take 6 = fmtHex 6 MAGIC_NEWC := by
  obtain ⟨hino, hmode, huid, hgid, hnlink, hmtime, hsize, hdvj, hdvn, hrvj, hrvn, hns⟩ := hfit
  have hB : m.tobuf
      = fmtHex 6 MAGIC_NEWC ++ (fmtHex 8 m.ino ++ (fmtHex 8 m.mode ++ (fmtHex 8 m.uid
        ++ (fmtHex 8 m.gid ++ (fmtHex 8 m.nlink ++ (fmtHex 8 m.mtime
        ++ (fmtHex 8 (sizeField m) ++ (fmtHex 8 m.devmajor ++ (fmtHex 8 m.devminor
        ++ (fmtHex 8 m.rdevmajor ++ (fmtHex 8 m.rdevminor
        ++ (fmtHex 8 (m.name.length + 1) ++ (fmtHex 8 m.check
        ++ (m.name ++ 0 :: List.replicate
            ((4 - ((headerFields m).flatten ++ m.name ++ [0]).length % 4) % 4) 0)))))))))))))) := by
    simp [CpioInfo.tobuf, hlink, headerFields, padWord, List.append_assoc]
  have hm6 : (fmtHex 6 MAGIC_NEWC).length = 6 := by decide
  have hsf : sizeField m = m.size := by simp [sizeField, hlink]
  have d6 := by
    have h := congrArg (List.drop 6) hB
    rwa [List.drop_left' hm6] at h
  have d14 := drop_block _ _ 6 14 d6 (fmtHex8_length m.ino hino) (by omega)
  have d22 := drop_block _ _ 14 22 d14 (fmtHex8_length m.mode hmode) (by omega)
  have d30 := drop_block _ _ 22 30 d22 (fmtHex8_length m.uid huid) (by omega)
  have d38 := drop_block _ _ 30 38 d30 (fmtHex8_length m.gid hgid) (by omega)
  have d46 := drop_block _ _ 38 46 d38 (fmtHex8_length m.nlink hnlink) (by omega)
  have d54 := drop_block _ _ 46 54 d46 (fmtHex8_length m.mtime hmtime) (by omega)
  have d62 := drop_block _ _ 54 62 d54 (fmtHex8_length (sizeField m) (by rw [hsf]; exact hsize)) (by omega)
  have d70 := drop_block _ _ 62 70 d62 (fmtHex8_length m.devmajor hdvj) (by omega)
  have d78 := drop_block _ _ 70 78 d70 (fmtHex8_length m.devminor hdvn) (by omega)
  have d86 := drop_block _ _ 78 86 d78 (fmtHex8_length m.rdevmajor hrvj) (by omega)
  have d94 := drop_block _ _ 86 94 d86 (fmtHex8_length m.rdevminor hrvn) (by omega)
  refine ⟨?_, ?_, ?_, ?_, ?_, ?_, ?_, ?_, ?_, ?_, ?_, ?_, ?_⟩
  · exact pyslice_block _ _ 6 14 d6 (fmtHex8_length m.ino hino)
  · exact pyslice_block _ _ 14 22 d14 (fmtHex8_length m.mode hmode)
  · exact pyslice_block _ _ 22 30 d22 (fmtHex8_length m.uid huid)
  · exact pyslice_block _ _ 30 38 d30 (fmtHex8_length m.gid hgid)
  · exact pyslice_block _ _ 38 46 d38 (fmtHex8_length m.nlink hnlink)
  · exact pyslice_block _ _ 46 54 d46 (fmtHex8_length m.mtime hmtime)
  · exact pyslice_block _ _ 54 62 d54 (fmtHex8_length (sizeField m) (by rw [hsf]; exact hsize))
  · exact pyslice_block _ _ 62 70 d62 (fmtHex8_length m.devmajor hdvj)
  · exact pyslice_block _ _ 70 78 d70 (fmtHex8_length m.devminor hdvn)
  · exact pyslice_block _ _ 78 86 d78 (fmtHex8_length m.rdevmajor hrvj)
  · exact pyslice_block _ _ 86 94 d86 (fmtHex8_length m.rdevminor hrvn)
  · exact pyslice_block _ _ 94 102 d94 (fmtHex8_length (m.name.length + 1) hns)
  · rw [hB]
    exact List.take_left' hm6


/-- Claim C3: header encode/decode round-trip — for every member with
empty linkname whose numeric fields each fit in 8 hex digits, `frombuf`
applied to the first 110 bytes of `tobuf` returns the same ino, mode,
uid, gid, nlink, mtime, size, devmajor, devminor, rdevmajor and
rdevminor, with `namesize` equal to `len(name) + 1`, and the encoded
header begins with the 6 ASCII digits `070701`. -/
theorem frombuf_tobuf_roundtrip (m : CpioInfo) (hlink : m.linkname = [])
    (hfit : headerFieldsFit m) :
    (CpioInfo.frombuf (m.tobuf.take 110)).ino = m.ino
    ∧ (CpioInfo.frombuf (m.tobuf.take 110)).mode = m.mode
    ∧ (CpioInfo.frombuf (m.tobuf.take 110)).uid = m.uid
    ∧ (CpioInfo.frombuf (m.tobuf.take 110)).gid = m.gid
    ∧ (CpioInfo.frombuf (m.tobuf.take 110)).nlink = m.nlink
    ∧ (CpioInfo.frombuf (m.tobuf.take 110)).mtime = m.mtime
    ∧ (CpioInfo.frombuf (m.tobuf.take 110)).size = m.size
    ∧ (CpioInfo.frombuf (m.tobuf.take 110)).devmajor = m.devmajor
    ∧ (CpioInfo.frombuf (m.tobuf.take 110)).devminor = m.devminor
    ∧ (CpioInfo.frombuf (m.tobuf.take 110)).rdevmajor = m.rdevmajor
    ∧ (CpioInfo.frombuf (m.tobuf.take 110)).rdevminor = m.rdevminor
    ∧ (CpioInfo.frombuf (m.tobuf.take 110)).namesize = m.name.length + 1
    ∧ m.tobuf.take 6 = [48, 55, 48, 55, 48, 49] := by
  obtain ⟨s1, s2, s3, s4, s5, s6, s7, s8, s9, s10, s11, s12, smagic⟩ :=
    frombuf_tobuf_fields m hlink hfit
  have hsf : sizeField m = m.size := by simp [sizeField, hlink]
  refine ⟨?_, ?_, ?_, ?_, ?_, ?_, ?_, ?_, ?_, ?_, ?_, ?_, ?_⟩
  · show parseHexBytes (pyslice (m.tobuf.take 110) 6 14) = m.ino
    rw [pyslice_take _ _ _ _ (by omega), s1, parseHexBytes_fmtHex]
  · show parseHexBytes (pyslice (m.tobuf.take 110) 14 22) = m.mode
    rw [pyslice_take _ _ _ _ (by omega), s2, parseHexBytes_fmtHex]
  · show parseHexBytes (pyslice (m.tobuf.take 110) 22 30) = m.uid
    rw [pyslice_take _ _ _ _ (by omega), s3, parseHexBytes_fmtHex]
  · show parseHexBytes (pyslice (m.tobuf.take 110) 30 38) = m.gid
    rw [pyslice_take _ _ _ _ (by omega), s4, parseHexBytes_fmtHex]
  · show parseHexBytes (pyslice (m.tobuf.take 110) 38 46) = m.nlink
    rw [pyslice_take _ _ _ _ (by omega), s5, parseHexBytes_fmtHex]
  · show parseHexBytes (pyslice (m.tobuf.take 110) 46 54) = m.mtime
    rw [pyslice_take _ _ _ _ (by omega), s6, parseHexBytes_fmtHex]
  · show parseHexBytes (pyslice (m.tobuf.take 110) 54 62) = m.size
    rw [pyslice_take _ _ _ _ (by omega), s7, parseHexBytes_fmtHex, hsf]
  · show parseHexBytes (pyslice (m.tobuf.take 110) 62 70) = m.devmajor
    rw [pyslice_take _ _ _ _ (by omega), s8, parseHexBytes_fmtHex]
  · show parseHexBytes (pyslice (m.tobuf.take 110) 70 78) = m.devminor
    rw [pyslice_take _ _ _ _ (by omega), s9, parseHexBytes_fmtHex]
  · show parseHexBytes (pyslice (m.tobuf.take 110) 78 86) = m.rdevmajor
    rw [pyslice_take _ _ _ _ (by omega), s10, parseHexBytes_fmtHex]
  · show parseHexBytes (pyslice (m.tobuf.take 110) 86 94) = m.rdevminor
    rw [pyslice_take _ _ _ _ (by omega), s11, parseHexBytes_fmtHex]
  · show parseHexBytes (pyslice (m.tobuf.take 110) 94 102) = m.name.length + 1
    rw [pyslice_take _ _ _ _ (by omega), s12, parseHexBytes_fmtHex]
  · rw [smagic]
    decide

/-- Claim C3 witness: the round trip applied to the concrete member
`c3m` (a regular file named `a`). -/
theorem frombuf_tobuf_roundtrip_witness :
    c3m.linkname = [] ∧ headerFieldsFit c3m
    ∧ (CpioInfo.frombuf (c3m.tobuf.take 110)).ino = c3m.ino :=
  ⟨rfl, by decide, (frombuf_tobuf_roundtrip c3m rfl (by decide)).1⟩


/-! ## Claim C4 lemmas: padding and alignment -/

theorem padWord_length (l : List Nat) :
    (padWord l).length = l.length + (4 - l.length % 4) % 4 := by
  simp [padWord]

theorem padWord_length_mod (l : List Nat) : (padWord l).length % 4 = 0 := by
  rw [padWord_length]
  omega

theorem tobuf_length_mod (m : CpioInfo) : m.tobuf.length % 4 = 0 := by
  unfold CpioInfo.tobuf
  by_cases h : m.linkname = [] <;> simp [h, padWord_length_mod]

theorem headerFlatten_length (m : CpioInfo) (hlink : m.linkname = [])
    (hfit : headerFieldsFit m) (hcheck : m.check < 2 ^ 32) :
    (headerFields m).flatten.length = 110 := by
  obtain ⟨hino, hmode, huid, hgid, hnlink, hmtime, hsize, hdvj, hdvn, hrvj, hrvn, hns⟩ := hfit
  have hsf : (fmtHex 8 (sizeField m)).length = 8 := by
    rw [show sizeField m = m.size by simp [sizeField, hlink]]
    exact fmtHex8_length m.size hsize
  have hm6 : (fmtHex 6 MAGIC_NEWC).length = 6 := by decide
  simp [headerFields, hm6, hsf, fmtHex8_length m.ino hino,
    fmtHex8_length m.mode hmode, fmtHex8_length m.uid huid,
    fmtHex8_length m.gid hgid, fmtHex8_length m.nlink hnlink,
    fmtHex8_length m.mtime hmtime, fmtHex8_length m.devmajor hdvj,
    fmtHex8_length m.devminor hdvn, fmtHex8_length m.rdevmajor hrvj,
    fmtHex8_length m.rdevminor hrvn, fmtHex8_length (m.name.length + 1) hns,
    fmtHex8_length m.check hcheck]

/-- Claim C4: the header+name block produced by `tobuf` is always a
multiple of 4 bytes long; a 5-character name yields 110+6 = 116 bytes with
zero pad bytes, a 4-character name yields 110+5 = 115 bytes plus 1 NUL pad
byte; and `addfile` leaves the archive's write offset — the byte offset of
the next header — at a multiple of 4 whenever it was aligned before. -/
theorem alignment_invariant :
    (∀ m : CpioInfo, m.tobuf.length % 4 = 0)
    ∧ (∀ m : CpioInfo, m.linkname = [] → headerFieldsFit m → m.check < 2 ^ 32 →
        m.name.length = 5 →
        m.tobuf.length = 116 ∧ m.tobuf.length - (110 + m.name.length + 1) = 0)
    ∧ (∀ m : CpioInfo, m.linkname = [] → headerFieldsFit m → m.check < 2 ^ 32 →
        m.name.length = 4 →
        m.tobuf.length = 116 ∧ m.tobuf.length - (110 + m.name.length + 1) = 1)
    ∧ (∀ (hardlinks : Bool) (st : WriteState) (ci : CpioInfo)
        (payload : Option (List Nat)), st.offset % 4 = 0 →
        (addfile hardlinks st ci payload).offset % 4 = 0) := by
  have hname : ∀ (m : CpioInfo), m.linkname = [] → headerFieldsFit m →
      m.check < 2 ^ 32 →
      m.tobuf.length = (110 + m.name.length + 1)
        + (4 - (110 + m.name.length + 1) % 4) % 4 := by
    intro m hlink hfit hcheck
    have hH := headerFlatten_length m hlink hfit hcheck
    have hb : m.tobuf = padWord ((headerFields m).flatten ++ m.name ++ [0]) := by
      simp [CpioInfo.tobuf, hlink]
    have hlen : ((headerFields m).flatten ++ m.name ++ [0]).length
        = 110 + m.name.length + 1 := by
      simp [hH]
      omega
    rw [hb, padWord_length, hlen]
  refine ⟨tobuf_length_mod, ?_, ?_, ?_⟩
  · intro m hlink hfit hcheck h5
    have := hname m hlink hfit hcheck
    rw [h5] at this
    omega
  · intro m hlink hfit hcheck h4
    have := hname m hlink hfit hcheck
    rw [h4] at this
    omega
  · intro hardlinks st ci payload hoff
    have hmod := tobuf_length_mod (addfileMember hardlinks st ci)
    rcases payload with _ | data <;> simp only [addfile] <;> omega

/-- Claim C4 witness: the alignment statements applied to the concrete
members `c4m5` (5-byte name) and `c4m4` (4-byte name) and one concrete
`addfile` call on an empty aligned archive. -/
theorem alignment_invariant_witness :
    c4m5.tobuf.length = 116
    ∧ c4m4.tobuf.length = 116
    ∧ (addfile true { } c3m (some [1, 2, 3])).offset % 4 = 0 :=
  ⟨(alignment_invariant.2.1 c4m5 rfl (by decide) (by decide) (by decide)).1,
   (alignment_invariant.2.2.1 c4m4 rfl (by decide) (by decide) (by decide)).1,
   alignment_invariant.2.2.2 true { } c3m (some [1, 2, 3]) (by decide)⟩


/-! ## Claim C6 lemmas: inode dictionary -/

theorem inodeLookup_store_self (t : List (Nat × List (List Nat))) (i : Nat)
    (v : List (List Nat)) : inodeLookup (inodeStore t i v) i = some v := by
  induction t with
  | nil => simp [inodeStore, inodeLookup]
  | cons kv rest ih =>
    obtain ⟨k, w⟩ := kv
    by_cases h : k = i <;> simp [inodeStore, inodeLookup, h, ih]

/-- Claim C6: in write mode with hardlink tracking enabled, adding a
member whose inode was already added forces its size to 0, records its
name as an alias of the first occurrence, and writes no payload bytes,
while the first occurrence keeps its size and full payload — so adding
two members with the same inode and nlink = 2 yields an archive in which
only the first carries nonzero size. -/
theorem addfile_hardlink_bookkeeping
    (st : WriteState) (m1 m2 : CpioInfo) (d1 d2 : List Nat)
    (hfresh : inodeLookup st.inodes m1.ino = none)
    (hino : m2.ino = m1.ino)
    (hn1 : m1.nlink = 2) (hn2 : m2.nlink = 2)
    (hs : 0 < m1.size) (hd1 : d1.length = m1.size)
    (hoff : st.offset % 4 = 0) :
    (addfile true (addfile true st m1 (some d1)) m2 (some d2)).members
      = st.members ++ [m1, { m2 with size := 0 }]
    ∧ inodeLookup
        (addfile true (addfile true st m1 (some d1)) m2 (some d2)).inodes m1.ino
      = some [m1.name, m2.name]
    ∧ (addfile true (addfile true st m1 (some d1)) m2 (some d2)).out
      = st.out ++ m1.tobuf ++ d1 ++ List.replicate ((4 - m1.size % 4) % 4) 0
        ++ ({ m2 with size := 0 } : CpioInfo).tobuf
    ∧ m1.size ≠ 0 ∧ ({ m2 with size := 0 } : CpioInfo).size = 0 := by
  have hL1 := tobuf_length_mod m1
  have hmem1 : addfileMember true st m1 = m1 := by
    simp [addfileMember, hfresh, hn1]
  have hino1 : addfileInodes true st m1 = inodeStore st.inodes m1.ino [m1.name] := by
    simp [addfileInodes, hfresh, hn1]
  set st1 := addfile true st m1 (some d1) with hst1
  have hpad1 : (4 - (st.offset + m1.tobuf.length + m1.size) % 4) % 4
      = (4 - m1.size % 4) % 4 := by
    omega
  have h1off : st1.offset % 4 = 0 := by
    rw [hst1]
    simp only [addfile, hmem1]
    omega
  have h1out : st1.out = st.out ++ m1.tobuf ++ d1
      ++ List.replicate ((4 - m1.size % 4) % 4) 0 := by
    rw [hst1]
    simp only [addfile, hmem1, hpad1]
    rw [← hd1, List.take_length]
  have h1members : st1.members = st.members ++ [m1] := by
    rw [hst1]
    simp only [addfile, hmem1]
  have h1inodes : st1.inodes = inodeStore st.inodes m1.ino [m1.name] := by
    rw [hst1]
    simp only [addfile, hino1]
  have hlook1 : inodeLookup st1.inodes m2.ino = some [m1.name] := by
    rw [h1inodes, hino]
    exact inodeLookup_store_self _ _ _
  have hmem2 : addfileMember true st1 m2 = { m2 with size := 0 } := by
    simp [addfileMember, hn2, hlook1]
  have hino2 : addfileInodes true st1 m2
      = inodeStore st1.inodes m2.ino [m1.name, m2.name] := by
    simp [addfileInodes, hn2, hlook1]
  have hsz2 : (addfileMember true st1 m2).size = 0 := by rw [hmem2]
  have hL2 := tobuf_length_mod (addfileMember true st1 m2)
  refine ⟨?_, ?_, ?_, by omega, rfl⟩
  · simp only [addfile]
    rw [h1members, hmem2]
    simp [List.append_assoc]
  · simp only [addfile]
    rw [hino2, hino]
    exact inodeLookup_store_self _ _ _
  · simp only [addfile]
    rw [hsz2]
    have hp : (4 - (st1.offset + (addfileMember true st1 m2).tobuf.length + 0) % 4) % 4
        = 0 := by
      omega
    rw [hp, List.replicate_zero, List.take_zero, List.append_nil, List.append_nil,
      h1out, hmem2]


/-- Claim C6 witness: the bookkeeping applied to a fresh empty archive and
the concrete hardlinked members `c6m1`, `c6m2`. -/
theorem addfile_hardlink_bookkeeping_witness :
    (addfile true (addfile true { } c6m1 (some [1, 2, 3])) c6m2 (some [9, 9, 9])).members
      = [c6m1, { c6m2 with size := 0 }]
    ∧ inodeLookup
        (addfile true (addfile true { } c6m1 (some [1, 2, 3])) c6m2 (some [9, 9, 9])).inodes
        c6m1.ino
      = some [c6m1.name, c6m2.name] :=
  ⟨(addfile_hardlink_bookkeeping { } c6m1 c6m2 [1, 2, 3] [9, 9, 9]
      rfl rfl rfl rfl (by decide) (by decide) (by decide)).1,
   (addfile_hardlink_bookkeeping { } c6m1 c6m2 [1, 2, 3] [9, 9, 9]
      rfl rfl rfl rfl (by decide) (by decide) (by decide)).2.1⟩

/-! ## Claim C7 and C10 lemmas: permission-bit masks -/

theorem or_mask_and_low (p m : Nat) (hp : p < 2 ^ 9) :
    (p ||| (m &&& 0o177000)) &&& 0o777 = p := by
  apply Nat.eq_of_testBit_eq
  intro j
  have e1 : (0o177000 : Nat) = (2 ^ 7 - 1) <<< 9 := by decide
  have e2 : (0o777 : Nat) = 2 ^ 9 - 1 := by decide
  simp only [Nat.testBit_and, Nat.testBit_or]
  rw [e1, e2]
  simp only [Nat.testBit_shiftLeft, Nat.testBit_two_pow_sub_one]
  by_cases hj : j < 9
  · have h9 : ¬ (j ≥ 9) := by omega
    simp [hj, h9]
  · have hpj : p.testBit j = false :=
      Nat.testBit_lt_two_pow
        (lt_of_lt_of_le hp (Nat.pow_le_pow_right (by omega) (by omega)))
    simp [hj, hpj]

theorem or_mask_and_type (p m : Nat) (hp : p < 2 ^ 9) :
    (p ||| (m &&& 0o177000)) &&& 0o170000 = m &&& 0o170000 := by
  apply Nat.eq_of_testBit_eq
  intro j
  have e1 : (0o177000 : Nat) = (2 ^ 7 - 1) <<< 9 := by decide
  have e2 : (0o170000 : Nat) = (2 ^ 4 - 1) <<< 12 := by decide
  simp only [Nat.testBit_and, Nat.testBit_or]
  rw [e1, e2]
  simp only [Nat.testBit_shiftLeft, Nat.testBit_two_pow_sub_one]
  by_cases h12 : j ≥ 12 ∧ j - 12 < 4
  · have h9a : j ≥ 9 := by omega
    have h9b : j - 9 < 7 := by omega
    have hpj : p.testBit j = false :=
      Nat.testBit_lt_two_pow
        (lt_of_lt_of_le hp (Nat.pow_le_pow_right (by omega) (by omega)))
    simp [h12.1, h12.2, h9a, h9b, hpj]
  · have hfalse : (decide (j ≥ 12) && decide (j - 12 < 4)) = false := by
      by_cases ha : j ≥ 12 <;> by_cases hb : j - 12 < 4 <;> simp [ha, hb]
      exact absurd ⟨ha, hb⟩ h12
    rw [hfalse]
    simp

theorem or_mask_and_special (p m : Nat) (hp : p < 2 ^ 9) :
    (p ||| (m &&& 0o177000)) &&& 0o7000 = m &&& 0o7000 := by
  apply Nat.eq_of_testBit_eq
  intro j
  have e1 : (0o177000 : Nat) = (2 ^ 7 - 1) <<< 9 := by decide
  have e2 : (0o7000 : Nat) = (2 ^ 3 - 1) <<< 9 := by decide
  simp only [Nat.testBit_and, Nat.testBit_or]
  rw [e1, e2]
  simp only [Nat.testBit_shiftLeft, Nat.testBit_two_pow_sub_one]
  by_cases h9 : j ≥ 9 ∧ j - 9 < 3
  · have h9b : j - 9 < 7 := by omega
    have hpj : p.testBit j = false :=
      Nat.testBit_lt_two_pow
        (lt_of_lt_of_le hp (Nat.pow_le_pow_right (by omega) (by omega)))
    simp [h9.1, h9.2, h9b, hpj]
  · have hfalse : (decide (j ≥ 9) && decide (j - 9 < 3)) = false := by
      by_cases ha : j ≥ 9 <;> by_cases hb : j - 9 < 3 <;> simp [ha, hb]
      exact absurd ⟨ha, hb⟩ h9
    rw [hfalse]
    simp

/-- Claim C7: for a path present in the merged attribute table, the packed
member's uid, gid and mtime equal the table values, its low 9 permission
bits equal the table's (octal-string) mode, and the entry-type bits of the
mode come from the live filesystem entry — all regardless of the live
entry's own uid/gid/mtime/permissions. -/
theorem pack_attr_override (desc extra : List (List Nat × FileAttr))
    (arcname : List Nat) (ci : CpioInfo) (fa : FileAttr)
    (hfound : mergedAttrs desc extra arcname = some fa)
    (hmode : parseOctBytes fa.mode < 0o1000) :
    (packEntryAttrs desc extra arcname ci).uid = fa.uid
    ∧ (packEntryAttrs desc extra arcname ci).gid = fa.gid
    ∧ (packEntryAttrs desc extra arcname ci).mtime = fa.mtime
    ∧ (packEntryAttrs desc extra arcname ci).mode &&& 0o777 = parseOctBytes fa.mode
    ∧ (packEntryAttrs desc extra arcname ci).mode &&& 0o170000
      = ci.mode &&& 0o170000 := by
  have hp : parseOctBytes fa.mode < 2 ^ 9 := by
    have : (0o1000 : Nat) = 2 ^ 9 := by decide
    omega
  have hent : packEntryAttrs desc extra arcname ci = applyFileAttr ci fa := by
    simp [packEntryAttrs, hfound]
  rw [hent]
  unfold applyFileAttr
  exact ⟨rfl, rfl, rfl, or_mask_and_low _ _ hp, or_mask_and_type _ _ hp⟩

/-- Claim C7 witness: the override applied with a concrete one-entry extra
table and a live regular-file member whose metadata all differ from the
table's. -/
theorem pack_attr_override_witness :
    (packEntryAttrs [] [([97], ⟨1, 2, [54, 52, 52], 9⟩)] [97]
        { mode := 0o100755, uid := 5, gid := 6, mtime := 7 }).uid = 1
    ∧ (packEntryAttrs [] [([97], ⟨1, 2, [54, 52, 52], 9⟩)] [97]
        { mode := 0o100755, uid := 5, gid := 6, mtime := 7 }).mode &&& 0o170000
      = 0o100000 :=
  ⟨(pack_attr_override [] [([97], ⟨1, 2, [54, 52, 52], 9⟩)] [97]
      { mode := 0o100755, uid := 5, gid := 6, mtime := 7 }
      ⟨1, 2, [54, 52, 52], 9⟩ rfl (by decide)).1,
   by
    rw [(pack_attr_override [] [([97], ⟨1, 2, [54, 52, 52], 9⟩)] [97]
      { mode := 0o100755, uid := 5, gid := 6, mtime := 7 }
      ⟨1, 2, [54, 52, 52], 9⟩ rfl (by decide)).2.2.2.2]
    decide⟩

/-- Claim C10: the descriptor captures each member's mode as exactly its
low 9 permission bits rendered as an octal string — the setuid, setgid and
sticky bits are never captured — and when that captured entry is applied
at pack time, the special bits (0o7000) of the packed mode come from the
live filesystem entry, not from the table. -/
theorem capture_mode_low_bits (ci live : CpioInfo)
    (desc : List (List Nat × FileAttr)) (arcname : List Nat) :
    parseOctBytes (captureAttr ci).mode = ci.mode &&& 0o777
    ∧ (captureAttr ci).mode = octString (ci.mode &&& 0o777)
    ∧ (ci.mode &&& 0o777) &&& 0o7000 = 0
    ∧ (packEntryAttrs desc [(arcname, captureAttr ci)] arcname live).mode &&& 0o7000
      = live.mode &&& 0o7000 := by
  have hcap : (captureAttr ci).mode = octString (ci.mode &&& 0o777) := rfl
  have hparse : parseOctBytes (captureAttr ci).mode = ci.mode &&& 0o777 := by
    rw [hcap]
    exact parseOctBytes_octString _
  have hp : parseOctBytes (captureAttr ci).mode < 2 ^ 9 := by
    rw [hparse]
    exact Nat.and_lt_two_pow ci.mode (by decide)
  have hl : mergedAttrs desc [(arcname, captureAttr ci)] arcname
      = some (captureAttr ci) := by
    simp [mergedAttrs, attrLookup]
  refine ⟨hparse, hcap, ?_, ?_⟩
  · rw [Nat.and_assoc, show (0o777 &&& 0o7000 : Nat) = 0 by decide, Nat.and_zero]
  · have hent : packEntryAttrs desc [(arcname, captureAttr ci)] arcname live
        = applyFileAttr live (captureAttr ci) := by
      simp [packEntryAttrs, hl]
    rw [hent]
    unfold applyFileAttr
    exact or_mask_and_special _ _ hp

end StorytelMods
